import Mathlib

/-
Shallow embedding of the runn-mcp-server data-shaping layer.

The source is TypeScript (src/helpers.ts and the tool-dispatch file).
Modelling conventions used throughout:
  - JavaScript numbers are modelled as rationals; ids as integers.
  - ISO date strings are modelled as integer day indices (days since
    1970-01-01, which was a Thursday, so getDay(d) = (d + 4) mod 7).
    Lexicographic comparison of ISO date strings agrees with the numeric
    order of day indices, so both string and Date comparisons in the
    source map to integer comparison.
  - Fields read defensively in the source (x || fallback, x?.y) become
    Option fields or explicit emptiness/zero checks mirroring JS
    truthiness ("" and 0 are falsy, [] is truthy).
  - JS Map objects become functions with a default, or association
    folds, mirroring insertion semantics; Math.round(x) is floor(x+1/2).
  - Wall-clock reads (new Date()) become an explicit parameter.
-/

namespace Runn

/-! ## JS string primitives (toLowerCase, trim, includes) -/

/-- Model of JS String.prototype.toLowerCase (character-wise). -/
def jsToLower (s : String) : String := ⟨s.data.map Char.toLower⟩

def isWS (c : Char) : Bool := c.isWhitespace

/-- Model of JS String.prototype.trim. -/
def jsTrim (s : String) : String :=
  ⟨((s.data.dropWhile isWS).reverse.dropWhile isWS).reverse⟩

/-- Does the haystack start with the needle? -/
def leadEq : List Char → List Char → Bool
  | [], _ => true
  | _ :: _, [] => false
  | c :: cs, d :: ds => c == d && leadEq cs ds

/-- Substring test on character lists (needle occurs somewhere in hay). -/
def subHit (needle : List Char) : List Char → Bool
  | [] => needle.isEmpty
  | c :: rest => leadEq needle (c :: rest) || subHit needle rest

/-- Model of JS String.prototype.includes. -/
def strIncludes (hay needle : String) : Bool := subHit needle.data hay.data

theorem strIncludes_empty (hay : String) : strIncludes hay "" = true := by
  unfold strIncludes
  cases h : hay.data with
  | nil => simp [subHit]
  | cons c rest => simp [subHit, leadEq]

/-! ## JS numeric and option helpers -/

/-- Model of the round helper in src/helpers.ts: Math.round(n * 100) / 100,
    where Math.round x = floor (x + 1/2). -/
def round (n : ℚ) : ℚ := (⌊n * 100 + 1 / 2⌋ : ℤ) / 100

/-- Model of (s1 || s2 || ...) chains ending in null: an empty string is
    falsy, so it falls through to the next alternative. -/
def strOrNone : Option String → Option String
  | some s => if s = "" then none else some s
  | none => none

/-- Model of (a || b) where a is an optional id (0 is falsy). -/
def idOr (a b : Option Int) : Option Int :=
  match a with
  | some n => if n ≠ 0 then some n else b
  | none => b

/-- Is an optional id truthy in JS (present and nonzero)? -/
def idTruthy : Option Int → Bool
  | some n => n != 0
  | none => false

/-! ## Dates: day indices and the workingDaysBetween helper -/

/-- Model of JS Date.prototype.getDay on a day index: 0 = Sunday,
    6 = Saturday; day 0 (1970-01-01) is a Thursday (= 4). -/
def jsGetDay (d : Int) : Int := (d + 4) % 7

/-- Weekday predicate on a day index, as the source tests it. -/
def isWorkday (d : Int) : Prop := jsGetDay d ≠ 0 ∧ jsGetDay d ≠ 6

instance (d : Int) : Decidable (isWorkday d) := by unfold isWorkday; infer_instance

/-- The while loop of workingDaysBetween: count weekdays among the n
    consecutive days starting at s. -/
def workingDaysCount : Int → Nat → Nat
  | _, 0 => 0
  | s, n + 1 =>
    (if jsGetDay s ≠ 0 ∧ jsGetDay s ≠ 6 then 1 else 0) + workingDaysCount (s + 1) n

/-- Model of workingDaysBetween in src/helpers.ts: 0 if either date is
    missing, else loop day by day from start to end inclusive, counting
    days whose getDay is neither 0 (Sunday) nor 6 (Saturday). -/
def workingDaysBetween : Option Int → Option Int → Nat
  | some s, some e => if s ≤ e then workingDaysCount s (e - s + 1).toNat else 0
  | some _, none => 0
  | none, _ => 0

theorem workingDaysCount_eq_countP (n : Nat) :
    ∀ s : Int, workingDaysCount s n =
      (List.range n).countP (fun i : Nat => decide (isWorkday (s + (i : Int)))) := by
  induction n with
  | zero => intro s; simp [workingDaysCount]
  | succ n ih =>
    intro s
    rw [workingDaysCount, List.range_succ_eq_map, List.countP_cons, List.countP_map, ih (s + 1)]
    have hcong : ((fun i : Nat => decide (isWorkday (s + (i : Int)))) ∘ Nat.succ) =
        (fun i : Nat => decide (isWorkday (s + 1 + (i : Int)))) := by
      funext i
      have h : s + ((Nat.succ i : Nat) : Int) = s + 1 + (i : Int) := by push_cast; ring
      simp only [Function.comp, h]
    rw [hcong]
    have hcast : s + ((0 : Nat) : Int) = s := by push_cast; ring
    simp only [hcast, isWorkday]
    by_cases h : jsGetDay s ≠ 0 ∧ jsGetDay s ≠ 6 <;> · simp [h]; try omega

theorem card_filter_range (m : Nat) (q : Nat → Prop) [DecidablePred q] :
    ((Finset.range m).filter q).card = (List.range m).countP (fun n => decide (q n)) := by
  induction m with
  | zero => simp
  | succ m ih =>
    rw [Finset.range_succ, Finset.filter_insert, List.range_succ, List.countP_append]
    by_cases h : q m
    · rw [if_pos h, Finset.card_insert_of_not_mem (by simp)]
      simp [h, ih]
      try omega
    · rw [if_neg h]
      simp [h, ih]

theorem workingDaysBetween_eq_card (s e : Int) :
    workingDaysBetween (some s) (some e) = ((Finset.Icc s e).filter isWorkday).card := by
  by_cases hse : s ≤ e
  · rw [workingDaysBetween, if_pos hse, Int.Icc_eq_finset_map,
      Finset.filter_map, Finset.card_map, card_filter_range]
    rw [workingDaysCount_eq_countP]
    have htoNat : (e - s + 1).toNat = (e + 1 - s).toNat := by omega
    rw [htoNat]
    apply List.countP_congr
    intro i _
    have harg : ((Nat.castEmbedding.trans (addLeftEmbedding s)) i : Int) = s + (i : Int) := by
      simp [Nat.castEmbedding, addLeftEmbedding]
    simp [Function.comp, harg]
  · rw [workingDaysBetween, if_neg hse, Finset.Icc_eq_empty (by omega)]
    simp

/-! ## Entities (section 3 of the data model) -/

structure Person where
  id : Int
  firstName : String := ""
  lastName : String := ""
  email : Option String := none
  teamId : Option Int := none
  teamIds : Option (List Int) := none
  role : Option String := none
  deriving DecidableEq

structure Team where
  id : Int
  name : String := ""
  deriving DecidableEq

structure Role where
  id : Int
  name : String := ""
  deriving DecidableEq

structure Skill where
  id : Int
  name : String := ""
  deriving DecidableEq

structure Client where
  id : Int
  name : String := ""
  deriving DecidableEq

structure Project where
  id : Int
  name : String := ""
  clientId : Option Int := none
  teamId : Option Int := none
  startDate : Option Int := none
  endDate : Option Int := none
  isConfirmed : Bool := false
  isTentative : Bool := false
  pricingModel : Option Int := none
  deriving DecidableEq

structure Assignment where
  personId : Int
  projectId : Int := 0
  roleId : Option Int := none
  startDate : Option Int := none
  endDate : Option Int := none
  minutesPerDay : Option ℚ := none
  deriving DecidableEq

structure Actual where
  personId : Int
  projectId : Int := 0
  billableMinutes : Option ℚ := none
  nonbillableMinutes : Option ℚ := none
  deriving DecidableEq

structure Leave where
  personId : Int
  startDate : Option Int := none
  endDate : Option Int := none
  leaveType : Option String := none
  type : Option String := none
  deriving DecidableEq

structure PersonSkill where
  skillId : Int
  level : Option ℚ := none
  deriving DecidableEq

/-! ## Lookup-map builders and grouping (JS Map semantics) -/

/-- Model of new Map(xs.map(x means [x.id, x])): point lookup with
    last-write-wins on colliding ids. -/
def buildMap {α : Type} (key : α → Int) (xs : List α) : Int → Option α :=
  fun k => xs.foldl (fun acc x => if key x = k then some x else acc) none

def buildTeamMap (teams : List Team) : Int → Option Team := buildMap Team.id teams

def buildRoleMap (roles : List Role) : Int → Option Role := buildMap Role.id roles

def buildSkillMap (skills : List Skill) : Int → Option Skill := buildMap Skill.id skills

def buildPersonMap (people : List Person) : Int → Option Person := buildMap Person.id people

def buildClientMap (clients : List Client) : Int → Option Client := buildMap Client.id clients

def buildProjectMap (projects : List Project) : Int → Option Project := buildMap Project.id projects

/-- Model of personName in src/helpers.ts. -/
def personName (p : Person) : String :=
  let s := jsTrim (p.firstName ++ " " ++ p.lastName)
  if s = "" then "Person " ++ toString p.id else s

/-- The group-into-a-Map-of-arrays pattern (push preserves encounter
    order; a missing key reads as the empty array). -/
def groupBy {α κ : Type} [DecidableEq κ] (key : α → κ) (xs : List α) : κ → List α :=
  xs.foldl (fun acc a => fun j => if j = key a then acc j ++ [a] else acc j) (fun _ => [])

theorem groupBy_core {α κ : Type} [DecidableEq κ] (key : α → κ) :
    ∀ (xs : List α) (acc : κ → List α) (k : κ),
      (xs.foldl (fun acc a => fun j => if j = key a then acc j ++ [a] else acc j) acc) k
        = acc k ++ xs.filter (fun a => key a = k) := by
  intro xs
  induction xs with
  | nil => intro acc k; simp
  | cons x t ih =>
    intro acc k
    rw [List.foldl_cons, ih, List.filter_cons]
    by_cases h : key x = k
    · simp [h, List.append_assoc]
    · have h2 : ¬ k = key x := fun hk => h hk.symm
      simp [h, h2]

theorem groupBy_eq_filter {α κ : Type} [DecidableEq κ] (key : α → κ) (xs : List α) (k : κ) :
    groupBy key xs k = xs.filter (fun a => key a = k) := by
  rw [groupBy, groupBy_core]
  simp

/-- Model of the actuals-by-person accumulation in computeUtilization:
    billable and nonbillable minute totals per person id. -/
def actualsByPerson (actuals : List Actual) : Int → ℚ × ℚ :=
  actuals.foldl
    (fun acc a => fun pid =>
      if pid = a.personId then
        ((acc pid).1 + a.billableMinutes.getD 0, (acc pid).2 + a.nonbillableMinutes.getD 0)
      else acc pid)
    (fun _ => (0, 0))

theorem actualsByPerson_core (actuals : List Actual) :
    ∀ (acc : Int → ℚ × ℚ) (pid : Int),
      (actuals.foldl
        (fun acc a => fun j =>
          if j = a.personId then
            ((acc j).1 + a.billableMinutes.getD 0, (acc j).2 + a.nonbillableMinutes.getD 0)
          else acc j) acc) pid
      = ((acc pid).1 +
          ((actuals.filter (fun a => a.personId = pid)).map (fun a => a.billableMinutes.getD 0)).sum,
         (acc pid).2 +
          ((actuals.filter (fun a => a.personId = pid)).map (fun a => a.nonbillableMinutes.getD 0)).sum) := by
  induction actuals with
  | nil => intro acc pid; simp
  | cons x t ih =>
    intro acc pid
    rw [List.foldl_cons, ih, List.filter_cons]
    by_cases h : x.personId = pid
    · simp [h, add_assoc]
    · have h2 : ¬ pid = x.personId := fun hk => h hk.symm
      simp [h, h2]

theorem actualsByPerson_eq (actuals : List Actual) (pid : Int) :
    actualsByPerson actuals pid =
      (((actuals.filter (fun a => a.personId = pid)).map (fun a => a.billableMinutes.getD 0)).sum,
       ((actuals.filter (fun a => a.personId = pid)).map (fun a => a.nonbillableMinutes.getD 0)).sum) := by
  rw [actualsByPerson, actualsByPerson_core]
  simp

/-- Model of the actuals-by-project accumulation in enrichProjectOverview:
    billable plus nonbillable minutes per project id. -/
def actualsByProject (actuals : List Actual) : Int → ℚ :=
  actuals.foldl
    (fun acc a => fun pid =>
      if pid = a.projectId then
        acc pid + (a.billableMinutes.getD 0 + a.nonbillableMinutes.getD 0)
      else acc pid)
    (fun _ => 0)

theorem actualsByProject_core (actuals : List Actual) :
    ∀ (acc : Int → ℚ) (pid : Int),
      (actuals.foldl
        (fun acc a => fun j =>
          if j = a.projectId then
            acc j + (a.billableMinutes.getD 0 + a.nonbillableMinutes.getD 0)
          else acc j) acc) pid
      = acc pid + ((actuals.filter (fun a => a.projectId = pid)).map
          (fun a => a.billableMinutes.getD 0 + a.nonbillableMinutes.getD 0)).sum := by
  induction actuals with
  | nil => intro acc pid; simp
  | cons x t ih =>
    intro acc pid
    rw [List.foldl_cons, ih, List.filter_cons]
    by_cases h : x.projectId = pid
    · simp [h, add_assoc]
    · have h2 : ¬ pid = x.projectId := fun hk => h hk.symm
      simp [h, h2]

theorem actualsByProject_eq (actuals : List Actual) (pid : Int) :
    actualsByProject actuals pid =
      ((actuals.filter (fun a => a.projectId = pid)).map
        (fun a => a.billableMinutes.getD 0 + a.nonbillableMinutes.getD 0)).sum := by
  rw [actualsByProject, actualsByProject_core]
  simp

/-- Generic reduce-with-plus lemma used to rewrite folds into sums. -/
theorem foldl_add_sum {α : Type} (g : α → ℚ) :
    ∀ (l : List α) (init : ℚ), l.foldl (fun s a => s + g a) init = init + (l.map g).sum := by
  intro l
  induction l with
  | nil => intro init; simp
  | cons x t ih => intro init; rw [List.foldl_cons, ih, List.map_cons, List.sum_cons]; ring

/-! ## Utilization computation (computeUtilization) -/

structure UtilPersonRow where
  id : Int
  name : String
  email : Option String
  team : Option String
  role : Option String
  utilizationPercent : ℚ
  billableMinutes : ℚ
  nonbillableMinutes : ℚ
  activeAssignments : Nat
  deriving DecidableEq

structure TeamSummary where
  name : String
  headcount : Nat
  avgUtilization : ℚ
  deriving DecidableEq

structure UtilSummary where
  totalPeople : Nat
  avgUtilizationPercent : ℚ
  totalBillableMinutes : ℚ
  totalNonbillableMinutes : ℚ
  deriving DecidableEq

structure UtilizationResult where
  summary : UtilSummary
  teams : List TeamSummary
  people : List UtilPersonRow
  deriving DecidableEq

structure UtilOpts where
  people : List Person := []
  assignments : List Assignment := []
  actuals : List Actual := []
  teams : List Team := []
  roles : List Role := []
  teamNameFilter : Option String := none
  dateRangeDays : ℚ := 20
  deriving DecidableEq

/-- The set of team ids whose team name contains the (already trimmed and
    lowercased) filter string. -/
def matchingTeamIds (teams : List Team) (q : String) : List Int :=
  (teams.filter (fun t => strIncludes (jsToLower t.name) q)).map Team.id

/-- The person-side team-id list the filter consults: the teamIds field
    when present (even if empty), else the singleton teamId when truthy. -/
def personTeamIdList (p : Person) : List Int :=
  match p.teamIds with
  | some l => l
  | none =>
    match p.teamId with
    | some t => if t ≠ 0 then [t] else []
    | none => []

/-- The team-name filter step of computeUtilization; the filter applies
    only when the string is truthy (present and nonempty). -/
def filteredPeople (o : UtilOpts) : List Person :=
  match o.teamNameFilter with
  | some f =>
    if f ≠ "" then
      let q := jsToLower (jsTrim f)
      let ids := matchingTeamIds o.teams q
      o.people.filter (fun p => (personTeamIdList p).any (fun i => ids.contains i))
    else o.people
  | none => o.people

def utilAvailableMinutes (o : UtilOpts) : ℚ := o.dateRangeDays * 480

/-- One person row of computeUtilization. -/
def utilPersonRow (o : UtilOpts) (p : Person) : UtilPersonRow :=
  let act := actualsByPerson o.actuals p.id
  let availableMinutes := utilAvailableMinutes o
  let utilization := if availableMinutes > 0 then round (act.1 / availableMinutes * 100) else 0
  let tid := idOr p.teamId (p.teamIds.bind List.head?)
  let team := if idTruthy tid then tid.bind (buildTeamMap o.teams) else none
  let personAssignments := groupBy Assignment.personId o.assignments p.id
  let primaryRoleId := personAssignments.head?.bind Assignment.roleId
  let role := if idTruthy primaryRoleId then primaryRoleId.bind (buildRoleMap o.roles) else none
  { id := p.id
    name := personName p
    email := strOrNone p.email
    team := strOrNone (team.map Team.name)
    role :=
      match strOrNone (role.map Role.name) with
      | some s => some s
      | none => strOrNone p.role
    utilizationPercent := utilization
    billableMinutes := act.1
    nonbillableMinutes := act.2
    activeAssignments := personAssignments.length }

/-- Insertion-ordered Map update: push v onto the entry for k, creating
    the entry at the end on first sight of k. -/
def upsertKey {κ α : Type} [DecidableEq κ] : List (κ × List α) → κ → α → List (κ × List α)
  | [], k, v => [(k, [v])]
  | (k0, vs) :: rest, k, v =>
    if k0 = k then (k0, vs ++ [v]) :: rest else (k0, vs) :: upsertKey rest k v

/-- Insertion-ordered grouping, as a JS Map built by pushes. -/
def groupPairs {κ α : Type} [DecidableEq κ] (key : α → κ) (xs : List α) : List (κ × List α) :=
  xs.foldl (fun m a => upsertKey m (key a) a) []

/-- The team-summary key: the resolved team name or Unassigned. -/
def rowTeamKey (r : UtilPersonRow) : String :=
  match r.team with
  | some s => if s = "" then "Unassigned" else s
  | none => "Unassigned"

/-- Model of computeUtilization in src/helpers.ts. -/
def computeUtilization (o : UtilOpts) : UtilizationResult :=
  let fp := filteredPeople o
  let peopleResult := fp.map (utilPersonRow o)
  let totalBillable := (fp.map (fun p => (actualsByPerson o.actuals p.id).1)).sum
  let totalNonbillable := (fp.map (fun p => (actualsByPerson o.actuals p.id).2)).sum
  let teamSummaries := (groupPairs rowTeamKey peopleResult).map
    (fun e => { name := e.1, headcount := e.2.length,
                avgUtilization :=
                  round ((e.2.map UtilPersonRow.utilizationPercent).sum / (e.2.length : ℚ)) })
  let avgUtil :=
    if peopleResult.length > 0 then
      round ((peopleResult.map UtilPersonRow.utilizationPercent).sum / (peopleResult.length : ℚ))
    else 0
  { summary :=
      { totalPeople := peopleResult.length
        avgUtilizationPercent := avgUtil
        totalBillableMinutes := totalBillable
        totalNonbillableMinutes := totalNonbillable }
    teams := teamSummaries
    people := peopleResult }

/-- The person of the end-to-end example in the spec. -/
def alicePerson : Person :=
  { id := 1, firstName := "Alice", lastName := "Smith", teamId := some 1 }

/-- The end-to-end example input of the spec: Alice with 7200 billable
    minutes over a 20-day window. -/
def aliceOpts : UtilOpts :=
  { people := [alicePerson]
    actuals := [{ personId := 1, billableMinutes := some 7200 }]
    dateRangeDays := 20 }

/-- C1: for every call to computeUtilization, each returned person row's
    utilizationPercent equals round((sum of that person's billableMinutes
    over the actuals) / (dateRangeDays * 480) * 100, 2) when the available
    minutes are positive, and 0 otherwise (no division by zero); the
    Alice/7200/20-day example yields exactly 75. -/
theorem utilizationPercent_correct :
    (∀ (o : UtilOpts), ∀ r ∈ (computeUtilization o).people,
      r.billableMinutes =
        ((o.actuals.filter (fun a => a.personId = r.id)).map
          (fun a => a.billableMinutes.getD 0)).sum
      ∧ r.utilizationPercent =
        (if 0 < o.dateRangeDays * 480 then
          round (r.billableMinutes / (o.dateRangeDays * 480) * 100)
        else 0))
    ∧ (computeUtilization aliceOpts).people.map UtilPersonRow.utilizationPercent = [75] := by
  constructor
  · intro o r hr
    have hpe : (computeUtilization o).people = (filteredPeople o).map (utilPersonRow o) := rfl
    rw [hpe] at hr
    obtain ⟨p, hp, rfl⟩ := List.mem_map.1 hr
    constructor
    · show (actualsByPerson o.actuals p.id).1 = _
      rw [actualsByPerson_eq]
      rfl
    · rfl
  · show [(utilPersonRow aliceOpts alicePerson).utilizationPercent] = [75]
    have h75 : (utilPersonRow aliceOpts alicePerson).utilizationPercent = 75 := by
      show (if utilAvailableMinutes aliceOpts > 0 then
        round ((actualsByPerson aliceOpts.actuals alicePerson.id).1 /
          utilAvailableMinutes aliceOpts * 100) else 0) = 75
      norm_num [utilAvailableMinutes, aliceOpts, alicePerson, actualsByPerson,
        List.foldl, round]
    rw [h75]

/-- Closed instantiation of the universally quantified part of
    utilizationPercent_correct at the Alice example. -/
theorem utilizationPercent_correct_witness :
    (utilPersonRow aliceOpts alicePerson).billableMinutes =
      ((aliceOpts.actuals.filter (fun a => a.personId =
          (utilPersonRow aliceOpts alicePerson).id)).map
        (fun a => a.billableMinutes.getD 0)).sum
    ∧ (utilPersonRow aliceOpts alicePerson).utilizationPercent =
      (if 0 < aliceOpts.dateRangeDays * 480 then
        round ((utilPersonRow aliceOpts alicePerson).billableMinutes /
          (aliceOpts.dateRangeDays * 480) * 100)
      else 0) :=
  utilizationPercent_correct.1 aliceOpts (utilPersonRow aliceOpts alicePerson)
    (List.Mem.head _)

/-- C2: workingDaysBetween counts every calendar day from start to end,
    inclusive of both endpoints, whose weekday is neither Saturday nor
    Sunday; on a single day it is 1 for a weekday and 0 for a weekend
    day; it is 0 whenever either argument is missing. -/
theorem workingDaysBetween_correct :
    (∀ s e : Int, workingDaysBetween (some s) (some e) =
      ((Finset.Icc s e).filter isWorkday).card)
    ∧ (∀ d : Int, isWorkday d → workingDaysBetween (some d) (some d) = 1)
    ∧ (∀ d : Int, ¬ isWorkday d → workingDaysBetween (some d) (some d) = 0)
    ∧ (∀ x : Option Int, workingDaysBetween none x = 0 ∧ workingDaysBetween x none = 0) := by
  refine ⟨workingDaysBetween_eq_card, ?_, ?_, ?_⟩
  · intro d h
    unfold isWorkday at h
    simp [workingDaysBetween, workingDaysCount, h]
  · intro d h
    unfold isWorkday at h
    simp [workingDaysBetween, workingDaysCount, h]
  · intro x
    refine ⟨rfl, ?_⟩
    cases x <;> rfl

/-- Closed instantiation of workingDaysBetween_correct: day 1 is a
    Friday, day 3 is a Sunday. -/
theorem workingDaysBetween_correct_witness :
    workingDaysBetween (some 1) (some 1) = 1
    ∧ workingDaysBetween (some 3) (some 3) = 0
    ∧ workingDaysBetween none (some 5) = 0 ∧ workingDaysBetween (some 5) none = 0 :=
  ⟨workingDaysBetween_correct.2.1 1 (by decide),
   workingDaysBetween_correct.2.2.1 3 (by decide),
   (workingDaysBetween_correct.2.2.2 (some 5)).1,
   (workingDaysBetween_correct.2.2.2 (some 5)).2⟩

/-! ## Project overview enrichment (enrichProjectOverview) -/

structure AssignedPerson where
  id : Int
  name : String
  role : Option String
  deriving DecidableEq

structure ProjectRow where
  id : Int
  name : String
  client : Option String
  team : Option String
  startDate : Option Int
  endDate : Option Int
  isConfirmed : Bool
  isTentative : Bool
  pricingModel : Option String
  assignmentCount : Nat
  assignedPeople : List AssignedPerson
  budgetMinutes : ℚ
  actualMinutes : ℚ
  budgetVsActualPercent : Option ℚ
  deriving DecidableEq

structure ProjectOverviewResult where
  totalProjects : Nat
  projects : List ProjectRow
  deriving DecidableEq

structure OverviewOpts where
  projects : List Project := []
  assignments : List Assignment := []
  actuals : List Actual := []
  clients : List Client := []
  teams : List Team := []
  people : List Person := []
  roles : List Role := []
  deriving DecidableEq

/-- The fixed pricing-model code table (unknown or missing codes give
    null). -/
def PRICING_MODELS : Option Int → Option String
  | some 0 => some "Time & Materials"
  | some 1 => some "Fixed Price"
  | some 2 => some "Non-Billable"
  | _ => none

/-- Model of spreading a JS Set built from a list: unique elements in
    first-occurrence order. -/
def uniqueFirst {α : Type} [DecidableEq α] (xs : List α) : List α :=
  xs.foldl (fun acc a => if a ∈ acc then acc else acc ++ [a]) []

/-- One project row of enrichProjectOverview. -/
def projectRow (o : OverviewOpts) (p : Project) : ProjectRow :=
  let projAssignments := groupBy Assignment.projectId o.assignments p.id
  let actualMinutes := actualsByProject o.actuals p.id
  let budgetMinutes := projAssignments.foldl
    (fun sum a =>
      sum + a.minutesPerDay.getD 0 * (workingDaysBetween a.startDate a.endDate : ℚ)) 0
  let uniquePersonIds := uniqueFirst (projAssignments.map Assignment.personId)
  let assignedPeople := uniquePersonIds.map (fun pid =>
    let person := buildPersonMap o.people pid
    let personAssignment := projAssignments.find? (fun a => a.personId = pid)
    let role :=
      match personAssignment with
      | some a => if idTruthy a.roleId then a.roleId.bind (buildRoleMap o.roles) else none
      | none => none
    ({ id := pid
       name :=
         match person with
         | some pr => personName pr
         | none => "Person " ++ toString pid
       role := strOrNone (role.map Role.name) } : AssignedPerson))
  let team := if idTruthy p.teamId then p.teamId.bind (buildTeamMap o.teams) else none
  { id := p.id
    name := p.name
    client := strOrNone ((p.clientId.bind (buildClientMap o.clients)).map Client.name)
    team := strOrNone (team.map Team.name)
    startDate := p.startDate
    endDate := p.endDate
    isConfirmed := p.isConfirmed
    isTentative := p.isTentative
    pricingModel := PRICING_MODELS p.pricingModel
    assignmentCount := projAssignments.length
    assignedPeople := assignedPeople
    budgetMinutes := budgetMinutes
    actualMinutes := actualMinutes
    budgetVsActualPercent :=
      if budgetMinutes > 0 then some (round (actualMinutes / budgetMinutes * 100)) else none }

/-- Model of enrichProjectOverview in src/helpers.ts. -/
def enrichProjectOverview (o : OverviewOpts) : ProjectOverviewResult :=
  let result := o.projects.map (projectRow o)
  { totalProjects := result.length, projects := result }

/-- C3: every project row's budgetMinutes is the sum, over the project's
    assignments, of minutesPerDay (default 0) times the working days in
    the assignment's date range; a missing start or end date contributes
    0; budgetVsActualPercent is round(actual / budget * 100) only when
    the budget is positive and null otherwise. -/
theorem budgetMinutes_and_ratio_correct :
    (∀ (o : OverviewOpts), ∀ r ∈ (enrichProjectOverview o).projects,
      r.budgetMinutes =
        ((o.assignments.filter (fun a => a.projectId = r.id)).map
          (fun a => a.minutesPerDay.getD 0 *
            (workingDaysBetween a.startDate a.endDate : ℚ))).sum
      ∧ r.budgetVsActualPercent =
        (if 0 < r.budgetMinutes then some (round (r.actualMinutes / r.budgetMinutes * 100))
         else none))
    ∧ (∀ a : Assignment, a.startDate = none ∨ a.endDate = none →
        a.minutesPerDay.getD 0 * (workingDaysBetween a.startDate a.endDate : ℚ) = 0) := by
  constructor
  · intro o r hr
    have hpe : (enrichProjectOverview o).projects = o.projects.map (projectRow o) := rfl
    rw [hpe] at hr
    obtain ⟨p, hp, rfl⟩ := List.mem_map.1 hr
    constructor
    · show (groupBy Assignment.projectId o.assignments p.id).foldl
        (fun sum a =>
          sum + a.minutesPerDay.getD 0 * (workingDaysBetween a.startDate a.endDate : ℚ)) 0 = _
      rw [groupBy_eq_filter, foldl_add_sum, zero_add]
      rfl
    · rfl
  · intro a h
    rcases h with h | h
    · rw [h]
      show a.minutesPerDay.getD 0 * ((0 : Nat) : ℚ) = 0
      simp
    · rw [h]
      have hz : workingDaysBetween a.startDate none = 0 := by cases a.startDate <;> rfl
      rw [hz]
      simp

/-- Example input for the witness of budgetMinutes_and_ratio_correct. -/
def overviewOptsEx : OverviewOpts :=
  { projects := [{ id := 7, name := "P" }]
    assignments := [{ personId := 1, projectId := 7, minutesPerDay := some 480,
                      startDate := some 0, endDate := some 4 }]
    actuals := [{ personId := 1, projectId := 7, billableMinutes := some 600 }] }

/-- Closed instantiation of budgetMinutes_and_ratio_correct at a concrete
    project and at an assignment with a missing end date. -/
theorem budgetMinutes_and_ratio_correct_witness :
    ((projectRow overviewOptsEx { id := 7, name := "P" }).budgetMinutes =
      ((overviewOptsEx.assignments.filter (fun a => a.projectId =
          (projectRow overviewOptsEx { id := 7, name := "P" }).id)).map
        (fun a => a.minutesPerDay.getD 0 *
          (workingDaysBetween a.startDate a.endDate : ℚ))).sum
     ∧ (projectRow overviewOptsEx { id := 7, name := "P" }).budgetVsActualPercent =
       (if 0 < (projectRow overviewOptsEx { id := 7, name := "P" }).budgetMinutes then
          some (round ((projectRow overviewOptsEx { id := 7, name := "P" }).actualMinutes /
            (projectRow overviewOptsEx { id := 7, name := "P" }).budgetMinutes * 100))
        else none))
    ∧ ({ personId := 1, startDate := some 0 } : Assignment).minutesPerDay.getD 0 *
        (workingDaysBetween (some 0) none : ℚ) = 0 :=
  ⟨budgetMinutes_and_ratio_correct.1 overviewOptsEx _ (List.Mem.head _),
   budgetMinutes_and_ratio_correct.2 { personId := 1, startDate := some 0 } (Or.inr rfl)⟩

/-! ## Capacity forecast (computeCapacityForecast) -/

structure ForecastAssignment where
  projectName : String
  startDate : Option Int
  endDate : Option Int
  minutesPerDay : Option ℚ
  deriving DecidableEq

structure LeaveOut where
  startDate : Option Int
  endDate : Option Int
  type : String
  deriving DecidableEq

structure ForecastRow where
  name : String
  id : Int
  team : Option String
  activeAssignments : Nat
  endingSoon : List ForecastAssignment
  upcomingLeave : List LeaveOut
  fullyAvailableAfter : Option Int
  deriving DecidableEq

structure WeeklyBucket where
  weekStart : Int
  utilization : ℚ
  availableCount : Int
  deriving DecidableEq

structure CapacityForecastResult where
  forecastWeeks : Int
  totalPeople : Nat
  currentlyUnassigned : Nat
  withEndingSoonAssignments : Nat
  weeklyBuckets : List WeeklyBucket
  forecast : List ForecastRow
  deriving DecidableEq

structure ForecastOpts where
  people : List Person := []
  assignments : List Assignment := []
  projects : List Project := []
  leave : List Leave := []
  teams : List Team := []
  weeksAhead : Int := 8
  deriving DecidableEq

/-- Resolve a project id to its name with the Project-id fallback (an
    empty stored name is falsy and also falls back). -/
def projectNameOr (pm : Int → Option Project) (pid : Int) : String :=
  match pm pid with
  | some pr => if pr.name = "" then "Project " ++ toString pid else pr.name
  | none => "Project " ++ toString pid

/-- The per-assignment projection inside computeCapacityForecast. -/
def toForecastAssignment (pm : Int → Option Project) (a : Assignment) : ForecastAssignment :=
  { projectName := projectNameOr pm a.projectId
    startDate := a.startDate
    endDate := a.endDate
    minutesPerDay := a.minutesPerDay }

/-- The person's assignments after the projectName projection, before
    the end-date filter. -/
def mappedAssignments (o : ForecastOpts) (p : Person) : List ForecastAssignment :=
  (o.assignments.filter (fun a => a.personId = p.id)).map
    (toForecastAssignment (buildProjectMap o.projects))

/-- The active assignments: no end date, or an end date on/after now. -/
def activeAssignmentsOf (now : Int) (o : ForecastOpts) (p : Person) : List ForecastAssignment :=
  (mappedAssignments o p).filter (fun a =>
    match a.endDate with
    | none => true
    | some e => now ≤ e)

/-- The ending-soon filter as the source applies it to the already
    filtered active assignments: a present end date on/before the
    forecast end. -/
def endingSoonOf (now : Int) (o : ForecastOpts) (p : Person) : List ForecastAssignment :=
  (activeAssignmentsOf now o p).filter (fun a =>
    match a.endDate with
    | some e => decide (e ≤ now + o.weeksAhead * 7)
    | none => false)

/-- The latest-end-date comparison of the source (a string comparison on
    ISO dates, which agrees with the day-index order; only reached with
    both dates present). -/
def optGtDate : Option Int → Option Int → Bool
  | some a, some b => decide (b < a)
  | _, _ => false

/-- The reduce of the source that keeps the latest end date. -/
def latestFold (l : List ForecastAssignment) (init : Option Int) : Option Int :=
  l.foldl (fun latest a => if optGtDate a.endDate latest then a.endDate else latest) init

theorem latestFold_cons (a : ForecastAssignment) (t : List ForecastAssignment)
    (init : Option Int) :
    latestFold (a :: t) init =
      latestFold t (if optGtDate a.endDate init then a.endDate else init) := rfl

/-- One person row of computeCapacityForecast. -/
def forecastPerson (now : Int) (o : ForecastOpts) (p : Person) : ForecastRow :=
  let tid := idOr p.teamId (p.teamIds.bind List.head?)
  let team := if idTruthy tid then tid.bind (buildTeamMap o.teams) else none
  let personAssignments := activeAssignmentsOf now o p
  let endingSoon := endingSoonOf now o p
  let personLeave := ((groupBy Leave.personId o.leave p.id).filter (fun l =>
      match l.endDate with
      | none => true
      | some e => now ≤ e)).map (fun l =>
    ({ startDate := l.startDate
       endDate := l.endDate
       type :=
         match strOrNone l.leaveType with
         | some s => s
         | none =>
           match strOrNone l.type with
           | some s => s
           | none => "Leave" } : LeaveOut))
  { name := personName p
    id := p.id
    team := strOrNone (team.map Team.name)
    activeAssignments := personAssignments.length
    endingSoon := endingSoon
    upcomingLeave := personLeave
    fullyAvailableAfter :=
      match endingSoon with
      | [] => none
      | h :: _ => latestFold endingSoon h.endDate }

/-- The weekly utilization buckets of computeCapacityForecast. -/
def weeklyBucketsOf (now : Int) (o : ForecastOpts) (forecast : List ForecastRow) :
    List WeeklyBucket :=
  (List.range o.weeksAhead.toNat).map (fun w =>
    let weekStart := now + (w : Int) * 7
    let weekEnd := weekStart + 7
    let assignedCount := (forecast.filter (fun p =>
      o.assignments.any (fun a =>
        a.personId == p.id &&
        (match a.startDate with
         | none => true
         | some s => decide (s ≤ weekEnd)) &&
        (match a.endDate with
         | none => true
         | some e => decide (weekStart ≤ e))))).length
    { weekStart := weekStart
      utilization :=
        if o.people.length > 0 then
          round ((assignedCount : ℚ) / (o.people.length : ℚ) * 100)
        else 0
      availableCount := (o.people.length : Int) - assignedCount })

/-- Model of computeCapacityForecast in src/helpers.ts; the source reads
    the wall clock (new Date()), modelled here as the explicit parameter
    now. -/
def computeCapacityForecast (now : Int) (o : ForecastOpts) : CapacityForecastResult :=
  let forecast := o.people.map (forecastPerson now o)
  let buckets := weeklyBucketsOf now o forecast
  let unassigned := forecast.filter (fun p => p.activeAssignments = 0)
  let ending := forecast.filter (fun p => p.endingSoon.length > 0)
  { forecastWeeks := o.weeksAhead
    totalPeople := forecast.length
    currentlyUnassigned := unassigned.length
    withEndingSoonAssignments := ending.length
    weeklyBuckets := buckets
    forecast := forecast }

theorem latestFold_eq_max (l : List ForecastAssignment) :
    ∀ x : Int, (∀ a ∈ l, ∃ e, a.endDate = some e) →
      latestFold l (some x) = some ((l.filterMap ForecastAssignment.endDate).foldl max x) := by
  induction l with
  | nil => intro x _; simp [latestFold]
  | cons a t ih =>
    intro x h
    obtain ⟨e, he⟩ := h a (List.Mem.head _)
    rw [latestFold_cons, List.filterMap_cons, he]
    have hstep : (if optGtDate (some e) (some x) then (some e : Option Int) else some x)
        = some (max x e) := by
      unfold optGtDate
      by_cases hlt : x < e
      · simp [hlt, max_eq_right (le_of_lt hlt)]
      · have hle : e ≤ x := by omega
        simp [hlt, max_eq_left hle]
    rw [hstep, ih (max x e) (fun b hb => h b (List.Mem.tail _ hb)), List.foldl_cons]

/-- C8: in computeCapacityForecast, the active assignments are exactly
    those with no end date or an end date on/after now; endingSoon is the
    subset of the active ones with an end date between now and
    now + weeksAhead*7 inclusive; fullyAvailableAfter is the maximum end
    date of the endingSoon assignments and null when there are none. -/
theorem capacityForecast_active_endingSoon_correct :
    (∀ (now : Int) (o : ForecastOpts),
      (computeCapacityForecast now o).forecast = o.people.map (forecastPerson now o))
    ∧ (∀ (now : Int) (o : ForecastOpts) (p : Person) (a : ForecastAssignment),
        a ∈ activeAssignmentsOf now o p ↔
          a ∈ mappedAssignments o p ∧
            (a.endDate = none ∨ ∃ e, a.endDate = some e ∧ now ≤ e))
    ∧ (∀ (now : Int) (o : ForecastOpts) (p : Person),
        (forecastPerson now o p).activeAssignments = (activeAssignmentsOf now o p).length
        ∧ (forecastPerson now o p).endingSoon =
            (activeAssignmentsOf now o p).filter (fun a =>
              match a.endDate with
              | some e => decide (now ≤ e ∧ e ≤ now + o.weeksAhead * 7)
              | none => false)
        ∧ (forecastPerson now o p).fullyAvailableAfter =
            ((forecastPerson now o p).endingSoon.filterMap ForecastAssignment.endDate).max?) := by
  refine ⟨fun now o => rfl, ?_, ?_⟩
  · intro now o p a
    unfold activeAssignmentsOf
    rw [List.mem_filter]
    apply and_congr_right
    intro _
    cases hae : a.endDate with
    | none => simp
    | some e => simp [hae]
  · intro now o p
    refine ⟨rfl, ?_, ?_⟩
    · show endingSoonOf now o p = _
      unfold endingSoonOf
      apply List.filter_congr
      intro a ha
      have hmem := (List.mem_filter.1 ha).2
      cases hae : a.endDate with
      | none => simp [hae]
      | some e =>
        rw [hae] at hmem
        simp only [decide_eq_true_eq] at hmem
        simp [hae, hmem]
    · have hfa : (forecastPerson now o p).fullyAvailableAfter =
          (match endingSoonOf now o p with
           | [] => none
           | h :: _ => latestFold (endingSoonOf now o p) h.endDate) := rfl
      have hsome : ∀ a ∈ endingSoonOf now o p, ∃ e, a.endDate = some e := by
        intro a ha
        have hpred := (List.mem_filter.1 ha).2
        cases hae : a.endDate with
        | none => rw [hae] at hpred; simp at hpred
        | some e => exact ⟨e, rfl⟩
      rw [hfa]
      show (match endingSoonOf now o p with
            | [] => none
            | h :: _ => latestFold (endingSoonOf now o p) h.endDate) =
        ((endingSoonOf now o p).filterMap ForecastAssignment.endDate).max?
      cases hes : endingSoonOf now o p with
      | nil => rfl
      | cons h t =>
        obtain ⟨e0, he0⟩ := hsome h (by rw [hes]; exact List.Mem.head _)
        show latestFold (h :: t) h.endDate = ((h :: t).filterMap ForecastAssignment.endDate).max?
        rw [latestFold_cons, List.filterMap_cons, he0, ite_self,
          latestFold_eq_max t e0 (fun b hb => hsome b (by rw [hes]; exact List.Mem.tail _ hb))]
        rfl

/-! ## Person detail enrichment (enrichPersonDetails) -/

structure SkillOut where
  name : String
  level : Option ℚ
  deriving DecidableEq

structure AssignmentOut where
  projectName : String
  projectId : Int
  role : Option String
  startDate : Option Int
  endDate : Option Int
  minutesPerDay : Option ℚ
  deriving DecidableEq

structure PersonDetails where
  id : Int
  name : String
  email : Option String
  team : Option String
  role : Option String
  skills : List SkillOut
  assignments : List AssignmentOut
  deriving DecidableEq

structure PersonDetailsOpts where
  person : Person
  personSkills : List PersonSkill := []
  assignments : List Assignment := []
  projects : List Project := []
  skillMap : Int → Option Skill := fun _ => none
  roleMap : Int → Option Role := fun _ => none
  teamMap : Int → Option Team := fun _ => none

/-- One skill entry of enrichPersonDetails: the stored skill name when it
    resolves and is truthy, else the Skill-id literal. -/
def skillEntry (skillMap : Int → Option Skill) (s : PersonSkill) : SkillOut :=
  { name :=
      match skillMap s.skillId with
      | some sk => if sk.name = "" then "Skill " ++ toString s.skillId else sk.name
      | none => "Skill " ++ toString s.skillId
    level := s.level }

/-- One assignment entry of enrichPersonDetails. -/
def assignmentEntry (projectMap : Int → Option Project) (roleMap : Int → Option Role)
    (a : Assignment) : AssignmentOut :=
  { projectName := projectNameOr projectMap a.projectId
    projectId := a.projectId
    role :=
      if idTruthy a.roleId then strOrNone ((a.roleId.bind roleMap).map Role.name) else none
    startDate := a.startDate
    endDate := a.endDate
    minutesPerDay := a.minutesPerDay }

/-- Model of enrichPersonDetails in src/helpers.ts. -/
def enrichPersonDetails (o : PersonDetailsOpts) : PersonDetails :=
  let projectMap := buildProjectMap o.projects
  let tid := idOr o.person.teamId (o.person.teamIds.bind List.head?)
  let team := if idTruthy tid then tid.bind o.teamMap else none
  { id := o.person.id
    name := personName o.person
    email := strOrNone o.person.email
    team := strOrNone (team.map Team.name)
    role := strOrNone o.person.role
    skills := o.personSkills.map (skillEntry o.skillMap)
    assignments := o.assignments.map (assignmentEntry projectMap o.roleMap) }

/-- C9 as stated is false on the code: for a KNOWN skill id whose stored
    name is the empty string, the entry's name is the literal fallback
    Skill id, not the record's name (the || fallback fires on any falsy
    name, not only on an unknown id). -/
theorem personDetails_skillName_counterexample :
    (enrichPersonDetails
        { person := { id := 1 },
          personSkills := [{ skillId := 5, level := none }],
          skillMap := buildSkillMap [{ id := 5, name := "" }] }).skills.map SkillOut.name
      = ["Skill 5"]
    ∧ buildSkillMap [{ id := 5, name := "" }] 5 = some { id := 5, name := "" }
    ∧ ("Skill 5" : String) ≠ "" := by
  refine ⟨?_, ?_, ?_⟩ <;> decide

/-- C9 (amended): enrichPersonDetails never fails on an unresolved
    foreign key; a skill entry's name is the record's name when the id
    resolves to a record with a nonempty name, and the Skill-id literal
    when the id is unknown or the stored name is empty; projectName
    behaves the same way with the Project-id literal; an assignment's
    role is null when it has no roleId; the team is null when the person
    has neither teamId nor teamIds. -/
theorem personDetails_fallbacks :
    (∀ o : PersonDetailsOpts,
      (enrichPersonDetails o).skills = o.personSkills.map (skillEntry o.skillMap)
      ∧ (enrichPersonDetails o).assignments =
          o.assignments.map (assignmentEntry (buildProjectMap o.projects) o.roleMap))
    ∧ (∀ (m : Int → Option Skill) (s : PersonSkill) (sk : Skill),
        m s.skillId = some sk → sk.name ≠ "" → (skillEntry m s).name = sk.name)
    ∧ (∀ (m : Int → Option Skill) (s : PersonSkill),
        (m s.skillId = none ∨ ∃ sk, m s.skillId = some sk ∧ sk.name = "") →
          (skillEntry m s).name = "Skill " ++ toString s.skillId)
    ∧ (∀ (pm : Int → Option Project) (rm : Int → Option Role) (a : Assignment) (pr : Project),
        pm a.projectId = some pr → pr.name ≠ "" →
          (assignmentEntry pm rm a).projectName = pr.name)
    ∧ (∀ (pm : Int → Option Project) (rm : Int → Option Role) (a : Assignment),
        pm a.projectId = none →
          (assignmentEntry pm rm a).projectName = "Project " ++ toString a.projectId)
    ∧ (∀ (pm : Int → Option Project) (rm : Int → Option Role) (a : Assignment),
        a.roleId = none → (assignmentEntry pm rm a).role = none)
    ∧ (∀ o : PersonDetailsOpts,
        o.person.teamId = none → o.person.teamIds = none →
          (enrichPersonDetails o).team = none) := by
  refine ⟨fun o => ⟨rfl, rfl⟩, ?_, ?_, ?_, ?_, ?_, ?_⟩
  · intro m s sk hm hne
    show (match m s.skillId with
          | some sk => if sk.name = "" then "Skill " ++ toString s.skillId else sk.name
          | none => "Skill " ++ toString s.skillId) = sk.name
    rw [hm]
    simp [hne]
  · intro m s hm
    show (match m s.skillId with
          | some sk => if sk.name = "" then "Skill " ++ toString s.skillId else sk.name
          | none => "Skill " ++ toString s.skillId) = "Skill " ++ toString s.skillId
    rcases hm with hm | ⟨sk, hm, hsk⟩
    · rw [hm]
    · rw [hm]
      simp [hsk]
  · intro pm rm a pr hm hne
    show projectNameOr pm a.projectId = pr.name
    unfold projectNameOr
    rw [hm]
    simp [hne]
  · intro pm rm a hm
    show projectNameOr pm a.projectId = "Project " ++ toString a.projectId
    unfold projectNameOr
    rw [hm]
  · intro pm rm a hr
    show (if idTruthy a.roleId then strOrNone ((a.roleId.bind rm).map Role.name) else none) = none
    rw [hr]
    rfl
  · intro o h1 h2
    show strOrNone
      ((if idTruthy (idOr o.person.teamId (o.person.teamIds.bind List.head?)) then
          (idOr o.person.teamId (o.person.teamIds.bind List.head?)).bind o.teamMap
        else none).map Team.name) = none
    rw [h1, h2]
    rfl

/-- Closed instantiation of personDetails_fallbacks: a resolvable skill
    and project, an unknown skill id, an unknown project id, a role-less
    assignment, and a person with no team fields. -/
theorem personDetails_fallbacks_witness :
    (skillEntry (buildSkillMap [{ id := 5, name := "TS" }]) { skillId := 5 }).name = "TS"
    ∧ (skillEntry (buildSkillMap []) { skillId := 9 }).name = "Skill " ++ toString (9 : Int)
    ∧ (assignmentEntry (buildProjectMap [{ id := 2, name := "Alpha" }]) (buildRoleMap [])
        { personId := 1, projectId := 2 }).projectName = "Alpha"
    ∧ (assignmentEntry (buildProjectMap []) (buildRoleMap [])
        { personId := 1, projectId := 3 }).projectName = "Project " ++ toString (3 : Int)
    ∧ (assignmentEntry (buildProjectMap []) (buildRoleMap [])
        { personId := 1, projectId := 3 }).role = none
    ∧ (enrichPersonDetails { person := { id := 1 } }).team = none :=
  ⟨personDetails_fallbacks.2.1 _ { skillId := 5 } { id := 5, name := "TS" } rfl (by decide),
   personDetails_fallbacks.2.2.1 _ { skillId := 9 } (Or.inl rfl),
   personDetails_fallbacks.2.2.2.1 _ _ { personId := 1, projectId := 2 }
     { id := 2, name := "Alpha" } rfl (by decide),
   personDetails_fallbacks.2.2.2.2.1 _ _ { personId := 1, projectId := 3 } rfl,
   personDetails_fallbacks.2.2.2.2.2.1 _ _ { personId := 1, projectId := 3 } rfl,
   personDetails_fallbacks.2.2.2.2.2.2 { person := { id := 1 } } rfl rfl⟩

/-! ## Search (the search_resources tool handler) -/

inductive ResType
  | people
  | projects
  | clients
  | all
  deriving DecidableEq

structure PersonHit where
  id : Int
  name : String
  email : Option String
  deriving DecidableEq

structure ProjectHit where
  id : Int
  name : String
  startDate : Option Int
  endDate : Option Int
  deriving DecidableEq

structure ClientHit where
  id : Int
  name : String
  deriving DecidableEq

structure SearchResults where
  people : Option (List PersonHit)
  projects : Option (List ProjectHit)
  clients : Option (List ClientHit)
  deriving DecidableEq

/-- The person predicate of search_resources: the lowercased full name
    (not trimmed) or the lowercased email contains the query. -/
def personMatches (q : String) (p : Person) : Bool :=
  strIncludes (jsToLower (p.firstName ++ " " ++ p.lastName)) q ||
    (match p.email with
     | some e => strIncludes (jsToLower e) q
     | none => false)

/-- The person projection of search_resources. -/
def personHit (p : Person) : PersonHit :=
  { id := p.id, name := jsTrim (p.firstName ++ " " ++ p.lastName), email := p.email }

def projectMatches (q : String) (p : Project) : Bool := strIncludes (jsToLower p.name) q

def projectHit (p : Project) : ProjectHit :=
  { id := p.id, name := p.name, startDate := p.startDate, endDate := p.endDate }

def clientMatches (q : String) (c : Client) : Bool := strIncludes (jsToLower c.name) q

def clientHit (c : Client) : ClientHit := { id := c.id, name := c.name }

/-- Model of the pure filtering of the search_resources handler: the
    query is trimmed and lowercased, each requested resource type is
    filtered by case-insensitive substring and projected; a type that was
    not requested is absent from the result record. -/
def searchResources (query : String) (rtype : ResType) (people : List Person)
    (projects : List Project) (clients : List Client) : SearchResults :=
  let q := jsToLower (jsTrim query)
  { people :=
      if rtype = .all ∨ rtype = .people then
        some ((people.filter (personMatches q)).map personHit)
      else none
    projects :=
      if rtype = .all ∨ rtype = .projects then
        some ((projects.filter (projectMatches q)).map projectHit)
      else none
    clients :=
      if rtype = .all ∨ rtype = .clients then
        some ((clients.filter (clientMatches q)).map clientHit)
      else none }

/-- C4 as stated is false on the code: an empty query is an empty
    substring, which every string contains, so searching with an empty
    query against a nonempty dataset returns every record rather than an
    empty list. -/
theorem search_emptyQuery_counterexample :
    (searchResources "" .people [{ id := 1, firstName := "A", lastName := "B" }] [] []).people
      = some [{ id := 1, name := "A B", email := none }]
    ∧ some [({ id := 1, name := "A B", email := none } : PersonHit)] ≠
        (some [] : Option (List PersonHit)) := by
  exact ⟨by decide, by decide⟩

/-- C4 (amended): matching is case-insensitive substring on a person's
    full name or email and on a project's or client's name; a query
    matching no record yields an empty list for every requested resource
    type; an empty (or whitespace-only) query matches every record and
    yields the full projected lists; no error is possible. -/
theorem search_resources_correct :
    (∀ (query : String) (rtype : ResType) (people : List Person) (projects : List Project)
        (clients : List Client),
      (rtype = .all ∨ rtype = .people →
        (searchResources query rtype people projects clients).people =
          some ((people.filter (personMatches (jsToLower (jsTrim query)))).map personHit))
      ∧ (rtype = .all ∨ rtype = .projects →
        (searchResources query rtype people projects clients).projects =
          some ((projects.filter (projectMatches (jsToLower (jsTrim query)))).map projectHit))
      ∧ (rtype = .all ∨ rtype = .clients →
        (searchResources query rtype people projects clients).clients =
          some ((clients.filter (clientMatches (jsToLower (jsTrim query)))).map clientHit)))
    ∧ (∀ (query : String) (people : List Person),
        (∀ p ∈ people, personMatches (jsToLower (jsTrim query)) p = false) →
          (people.filter (personMatches (jsToLower (jsTrim query)))).map personHit = [])
    ∧ (∀ (query : String) (projects : List Project),
        (∀ p ∈ projects, projectMatches (jsToLower (jsTrim query)) p = false) →
          (projects.filter (projectMatches (jsToLower (jsTrim query)))).map projectHit = [])
    ∧ (∀ (query : String) (clients : List Client),
        (∀ c ∈ clients, clientMatches (jsToLower (jsTrim query)) c = false) →
          (clients.filter (clientMatches (jsToLower (jsTrim query)))).map clientHit = [])
    ∧ (∀ (query : String) (people : List Person) (projects : List Project)
          (clients : List Client),
        jsToLower (jsTrim query) = "" →
          (people.filter (personMatches (jsToLower (jsTrim query)))).map personHit =
            people.map personHit
          ∧ (projects.filter (projectMatches (jsToLower (jsTrim query)))).map projectHit =
              projects.map projectHit
          ∧ (clients.filter (clientMatches (jsToLower (jsTrim query)))).map clientHit =
              clients.map clientHit)
    ∧ (∀ (q q' : String) (rtype : ResType) (people : List Person) (projects : List Project)
          (clients : List Client),
        jsToLower (jsTrim q) = jsToLower (jsTrim q') →
          searchResources q rtype people projects clients =
            searchResources q' rtype people projects clients) := by
  refine ⟨?_, ?_, ?_, ?_, ?_, ?_⟩
  · intro query rtype people projects clients
    refine ⟨fun h => ?_, fun h => ?_, fun h => ?_⟩ <;> simp [searchResources, h]
  · intro query people h
    rw [List.filter_eq_nil_iff.2 (fun p hp => by simp [h p hp])]
    rfl
  · intro query projects h
    rw [List.filter_eq_nil_iff.2 (fun p hp => by simp [h p hp])]
    rfl
  · intro query clients h
    rw [List.filter_eq_nil_iff.2 (fun c hc => by simp [h c hc])]
    rfl
  · intro query people projects clients h
    rw [h]
    refine ⟨?_, ?_, ?_⟩
    · rw [List.filter_eq_self.2 (fun p _ => ?_)]
      unfold personMatches
      rw [strIncludes_empty]
      rfl
    · rw [List.filter_eq_self.2 (fun p _ => ?_)]
      unfold projectMatches
      rw [strIncludes_empty]
    · rw [List.filter_eq_self.2 (fun c _ => ?_)]
      unfold clientMatches
      rw [strIncludes_empty]
  · intro q q' rtype people projects clients h
    unfold searchResources
    rw [h]

/-- Sample dataset for the search witness. -/
def searchPeopleEx : List Person :=
  [{ id := 1, firstName := "Alice", lastName := "Smith", email := some "alice@co.com" },
   { id := 2, firstName := "Bob", lastName := "Ng", email := none }]

/-- Closed instantiation of search_resources_correct: the people shape at
    query a, an all-types miss at query zzzznonexistent99999, the
    empty-query full result, and case-insensitivity of the query. -/
theorem search_resources_correct_witness :
    (searchResources "a" .people searchPeopleEx [] []).people =
      some ((searchPeopleEx.filter (personMatches (jsToLower (jsTrim "a")))).map personHit)
    ∧ (searchPeopleEx.filter
        (personMatches (jsToLower (jsTrim "zzzznonexistent99999")))).map personHit = []
    ∧ (searchPeopleEx.filter (personMatches (jsToLower (jsTrim " ")))).map personHit =
        searchPeopleEx.map personHit
    ∧ searchResources "A" .all searchPeopleEx [] [] =
        searchResources "a" .all searchPeopleEx [] [] :=
  ⟨(search_resources_correct.1 "a" .people searchPeopleEx [] []).1 (Or.inr rfl),
   search_resources_correct.2.1 "zzzznonexistent99999" searchPeopleEx (by decide),
   (search_resources_correct.2.2.2.2.1 " " searchPeopleEx [] [] (by decide)).1,
   search_resources_correct.2.2.2.2.2 "A" "a" .all searchPeopleEx [] [] (by decide)⟩

/-! ## Pagination (paginate in the tool-dispatch file) -/

structure Page (α : Type) where
  values : List α
  nextCursor : Option String

/-- Is a cursor truthy in JS (present and nonempty)? -/
def cursorTruthy : Option String → Bool
  | some s => s ≠ ""
  | none => false

/-- The do-while loop of paginate: fetch, append values, advance the
    cursor, stop after 10 pages or on a falsy cursor. The fuel argument
    only bounds the recursion; the loop itself stops at 10 pages. -/
def paginateAux {α : Type} (f : Option String → Page α) :
    Option String → Nat → Nat → List α → List α
  | _, _, 0, acc => acc
  | cursor, pages, fuel + 1, acc =>
    let result := f cursor
    let acc2 := acc ++ result.values
    let cursor2 := result.nextCursor
    let pages2 := pages + 1
    if 10 ≤ pages2 then acc2
    else if cursorTruthy cursor2 then paginateAux f cursor2 pages2 fuel acc2
    else acc2

/-- Model of paginate in the tool-dispatch source. -/
def paginate {α : Type} (f : Option String → Page α) : List α := paginateAux f none 0 10 []

/-- An opaque nonempty cursor encoding the page index i as its length. -/
def cursorFor (i : Nat) : String := ⟨List.replicate i '*'⟩

/-- A cursor-linked page source with L pages: page i carries values p i
    and links to page i+1; the last page ends with an absent cursor, or
    with an empty cursor when endEmpty is set. -/
def mkFetcher {α : Type} (p : Nat → List α) (L : Nat) (endEmpty : Bool) :
    Option String → Page α := fun c =>
  let i :=
    match c with
    | none => 0
    | some s => s.length
  { values := p i
    nextCursor :=
      if i + 1 < L then some (cursorFor (i + 1))
      else if endEmpty then some "" else none }

theorem cursorFor_length (i : Nat) : (cursorFor i).length = i := by
  simp [cursorFor, String.length]

theorem paginateAux_mkFetcher {α : Type} (p : Nat → List α) (L : Nat) (endEmpty : Bool) :
    ∀ (fuel pages i : Nat) (c : Option String) (acc : List α),
      pages + fuel = 10 → 1 ≤ fuel → i < L →
      ((c = none ∧ i = 0) ∨ (c = some (cursorFor i) ∧ 1 ≤ i)) →
      paginateAux (mkFetcher p L endEmpty) c pages fuel acc
        = acc ++ ((List.range' i (min (L - i) fuel)).map p).flatten := by
  intro fuel
  induction fuel with
  | zero => intro pages i c acc h10 h1; exact absurd h1 (by omega)
  | succ fu ih =>
    intro pages i c acc h10 h1 hiL hc
    have hf : mkFetcher p L endEmpty c =
        { values := p i
          nextCursor :=
            if i + 1 < L then some (cursorFor (i + 1))
            else if endEmpty then some "" else none } := by
      rcases hc with ⟨hcn, hi0⟩ | ⟨hcs, _⟩
      · subst hcn
        subst hi0
        rfl
      · subst hcs
        simp only [mkFetcher, cursorFor_length]
    simp only [paginateAux, hf]
    by_cases hcap : 10 ≤ pages + 1
    · rw [if_pos hcap]
      have hmin : min (L - i) (fu + 1) = 1 := by omega
      rw [hmin, List.range'_one, List.map_cons, List.map_nil, List.flatten_cons,
        List.flatten_nil, List.append_nil]
    · rw [if_neg hcap]
      by_cases hnext : i + 1 < L
      · rw [if_pos hnext]
        have hne : cursorFor (i + 1) ≠ "" := by
          intro heq
          have hlen := congrArg String.length heq
          rw [cursorFor_length] at hlen
          have hz : ("" : String).length = 0 := rfl
          rw [hz] at hlen
          exact absurd hlen (by omega)
        have htruthy : cursorTruthy (some (cursorFor (i + 1))) = true := by
          simp [cursorTruthy, hne]
        rw [if_pos htruthy]
        rw [ih (pages + 1) (i + 1) (some (cursorFor (i + 1))) _ (by omega) (by omega) hnext
          (Or.inr ⟨rfl, by omega⟩)]
        have hmin : min (L - i) (fu + 1) = min (L - (i + 1)) fu + 1 := by omega
        rw [hmin, List.range'_succ, List.map_cons, List.flatten_cons, List.append_assoc]
      · rw [if_neg hnext]
        have hfalsy : cursorTruthy (if endEmpty then some "" else none) = false := by
          cases endEmpty <;> simp [cursorTruthy]
        rw [hfalsy]
        have hmin : min (L - i) (fu + 1) = 1 := by omega
        rw [if_neg (by simp), hmin, List.range'_one, List.map_cons, List.map_nil,
          List.flatten_cons, List.flatten_nil, List.append_nil]

/-- C6: for a cursor-linked source with L pages (ending in an absent or
    an empty cursor), paginate returns the concatenation, in page order,
    of the values of the first min(L,10) pages: all pages when L is at
    most 10, and exactly the first 10 pages beyond that, even though a
    further cursor is present. -/
theorem paginate_correct {α : Type} (p : Nat → List α) (L : Nat) (endEmpty : Bool)
    (hL : 1 ≤ L) :
    paginate (mkFetcher p L endEmpty) = ((List.range (min L 10)).map p).flatten := by
  unfold paginate
  rw [paginateAux_mkFetcher p L endEmpty 10 0 0 none [] (by omega) (by omega) (by omega)
    (Or.inl ⟨rfl, rfl⟩)]
  rw [List.range_eq_range']
  simp

/-- Closed instantiation of paginate_correct: a 3-page source yields all
    three pages; a 12-page source (with an empty final cursor) truncates
    to the first 10 pages. -/
theorem paginate_correct_witness :
    paginate (mkFetcher (fun i => [i]) 3 false) =
      ((List.range (min 3 10)).map (fun i => [i])).flatten
    ∧ paginate (mkFetcher (fun i => [i]) 12 true) =
      ((List.range (min 12 10)).map (fun i => [i])).flatten :=
  ⟨paginate_correct (fun i => [i]) 3 false (by decide),
   paginate_correct (fun i => [i]) 12 true (by decide)⟩

/-! ## Retry policy (withRetry in the tool-dispatch file) -/

structure ErrInfo where
  status : Option Int := none
  retryAfter : Option ℚ := none
  deriving DecidableEq

inductive Outcome (α : Type)
  | ok : α → Outcome α
  | fail : ErrInfo → Outcome α
  deriving DecidableEq

/-- The retryable test of withRetry: status 429 or any 5xx; a missing
    status is not retryable. -/
def retryableStatus (e : ErrInfo) : Bool :=
  match e.status with
  | some s => decide (s = 429) || (decide (500 ≤ s) && decide (s < 600))
  | none => false

/-- The backoff delay in seconds: the Retry-After header value when
    present (and truthy/parseable), else 2 to the power attempt. -/
def delayFor (e : ErrInfo) (attempt : Nat) : ℚ :=
  match e.retryAfter with
  | some r => r
  | none => 2 ^ attempt

/-- The observable behaviour of one withRetry call: the final outcome,
    how many underlying attempts were made, and the sleep delays. -/
structure RetryOutcome (α : Type) where
  result : Outcome α
  attempts : Nat
  delays : List ℚ
  deriving DecidableEq

/-- The retry loop of withRetry. The fuel argument only bounds the
    recursion; it starts at maxRetries and the attempt-limit test exits
    the loop before fuel can run out. -/
def withRetryGo {α : Type} (fn : Nat → Outcome α) (maxRetries : Nat) :
    Nat → Nat → List ℚ → RetryOutcome α
  | fuel, attempt, delays =>
    match fn attempt with
    | .ok v => ⟨.ok v, attempt + 1, delays⟩
    | .fail e =>
      if retryableStatus e = false ∨ maxRetries ≤ attempt then ⟨.fail e, attempt + 1, delays⟩
      else
        match fuel with
        | 0 => ⟨.fail e, attempt + 1, delays⟩
        | f + 1 => withRetryGo fn maxRetries f (attempt + 1) (delays ++ [delayFor e attempt])

/-- Model of withRetry in the tool-dispatch source (maxRetries defaults
    to 3 and every caller uses the default). -/
def withRetry {α : Type} (fn : Nat → Outcome α) (maxRetries : Nat := 3) : RetryOutcome α :=
  withRetryGo fn maxRetries maxRetries 0 []

theorem withRetryGo_ok {α : Type} (fn : Nat → Outcome α) (maxRetries fuel attempt : Nat)
    (delays : List ℚ) (v : α) (h : fn attempt = .ok v) :
    withRetryGo fn maxRetries fuel attempt delays = ⟨.ok v, attempt + 1, delays⟩ := by
  cases fuel with
  | zero => rw [withRetryGo, h]
  | succ f => rw [withRetryGo, h]

theorem withRetryGo_throw {α : Type} (fn : Nat → Outcome α) (maxRetries fuel attempt : Nat)
    (delays : List ℚ) (e : ErrInfo) (h : fn attempt = .fail e)
    (hc : retryableStatus e = false ∨ maxRetries ≤ attempt) :
    withRetryGo fn maxRetries fuel attempt delays = ⟨.fail e, attempt + 1, delays⟩ := by
  cases fuel with
  | zero =>
    rw [withRetryGo, h]
    show (if retryableStatus e = false ∨ maxRetries ≤ attempt then
        (⟨.fail e, attempt + 1, delays⟩ : RetryOutcome α)
      else ⟨.fail e, attempt + 1, delays⟩) = _
    rw [if_pos hc]
  | succ f =>
    rw [withRetryGo, h]
    show (if retryableStatus e = false ∨ maxRetries ≤ attempt then
        (⟨.fail e, attempt + 1, delays⟩ : RetryOutcome α)
      else withRetryGo fn maxRetries f (attempt + 1) (delays ++ [delayFor e attempt])) = _
    rw [if_pos hc]

theorem withRetryGo_retry {α : Type} (fn : Nat → Outcome α) (maxRetries f attempt : Nat)
    (delays : List ℚ) (e : ErrInfo) (h : fn attempt = .fail e)
    (hr : retryableStatus e = true) (ha : attempt < maxRetries) :
    withRetryGo fn maxRetries (f + 1) attempt delays
      = withRetryGo fn maxRetries f (attempt + 1) (delays ++ [delayFor e attempt]) := by
  rw [withRetryGo, h]
  show (if retryableStatus e = false ∨ maxRetries ≤ attempt then
      (⟨.fail e, attempt + 1, delays⟩ : RetryOutcome α)
    else withRetryGo fn maxRetries f (attempt + 1) (delays ++ [delayFor e attempt])) = _
  rw [if_neg (by simp [hr]; omega)]

theorem delayFor_eq_getD (e : ErrInfo) (n : Nat) :
    delayFor e n = e.retryAfter.getD (2 ^ n) := by
  cases h : e.retryAfter <;> simp [delayFor, h]

theorem withRetryGo_attempts_le {α : Type} (fn : Nat → Outcome α) (maxRetries : Nat) :
    ∀ (fuel attempt : Nat) (delays : List ℚ),
      (withRetryGo fn maxRetries fuel attempt delays).attempts ≤ attempt + fuel + 1 := by
  intro fuel
  induction fuel with
  | zero =>
    intro attempt delays
    cases h : fn attempt with
    | ok v => rw [withRetryGo_ok fn maxRetries 0 attempt delays v h]
    | fail e =>
      by_cases hc : retryableStatus e = false ∨ maxRetries ≤ attempt
      · rw [withRetryGo_throw fn maxRetries 0 attempt delays e h hc]
      · rw [withRetryGo, h]
        show (if retryableStatus e = false ∨ maxRetries ≤ attempt then
            (⟨.fail e, attempt + 1, delays⟩ : RetryOutcome α)
          else ⟨.fail e, attempt + 1, delays⟩).attempts ≤ attempt + 0 + 1
        rw [if_neg hc]
  | succ f ih =>
    intro attempt delays
    cases h : fn attempt with
    | ok v =>
      rw [withRetryGo_ok fn maxRetries (f + 1) attempt delays v h]
      show attempt + 1 ≤ attempt + (f + 1) + 1
      omega
    | fail e =>
      by_cases hc : retryableStatus e = false ∨ maxRetries ≤ attempt
      · rw [withRetryGo_throw fn maxRetries (f + 1) attempt delays e h hc]
        show attempt + 1 ≤ attempt + (f + 1) + 1
        omega
      · have hr : retryableStatus e = true := by
          cases hx : retryableStatus e
          · exact absurd (Or.inl hx) hc
          · rfl
        have ha : attempt < maxRetries := by
          push_neg at hc
          omega
        rw [withRetryGo_retry fn maxRetries f attempt delays e h hr ha]
        exact le_trans (ih (attempt + 1) (delays ++ [delayFor e attempt])) (by omega)

/-- C7: withRetry retries only on 429/5xx statuses (a missing status is
    not retryable); a non-retryable first failure propagates after
    exactly one attempt with no delay; two retryable failures followed by
    a success return the success after exactly 3 attempts with backoff
    delays taken from the Retry-After value when present, else 1 and 2
    seconds (2 to the power attempt); four consecutive failures exhaust
    the 3 retries and re-raise the last error after 4 attempts; no call
    ever makes more than 4 attempts. -/
theorem withRetry_policy_correct :
    (∀ (e : ErrInfo) (s : Int), e.status = some s →
      (retryableStatus e = true ↔ (s = 429 ∨ (500 ≤ s ∧ s < 600))))
    ∧ (∀ e : ErrInfo, e.status = none → retryableStatus e = false)
    ∧ (∀ (α : Type) (fn : Nat → Outcome α) (e : ErrInfo), fn 0 = .fail e →
        retryableStatus e = false → withRetry fn = ⟨.fail e, 1, []⟩)
    ∧ (∀ (α : Type) (fn : Nat → Outcome α) (e0 e1 : ErrInfo) (v : α),
        fn 0 = .fail e0 → fn 1 = .fail e1 → fn 2 = .ok v →
        retryableStatus e0 = true → retryableStatus e1 = true →
        withRetry fn = ⟨.ok v, 3, [e0.retryAfter.getD 1, e1.retryAfter.getD 2]⟩)
    ∧ (∀ (α : Type) (fn : Nat → Outcome α) (e0 e1 e2 e3 : ErrInfo),
        fn 0 = .fail e0 → fn 1 = .fail e1 → fn 2 = .fail e2 → fn 3 = .fail e3 →
        retryableStatus e0 = true → retryableStatus e1 = true → retryableStatus e2 = true →
        withRetry fn = ⟨.fail e3, 4,
          [e0.retryAfter.getD 1, e1.retryAfter.getD 2, e2.retryAfter.getD 4]⟩)
    ∧ (∀ (α : Type) (fn : Nat → Outcome α), (withRetry fn).attempts ≤ 4) := by
  refine ⟨?_, ?_, ?_, ?_, ?_, ?_⟩
  · intro e s h
    unfold retryableStatus
    rw [h]
    simp
  · intro e h
    unfold retryableStatus
    rw [h]
  · intro α fn e h0 hr
    unfold withRetry
    rw [withRetryGo_throw fn 3 3 0 [] e h0 (Or.inl hr)]
  · intro α fn e0 e1 v h0 h1 h2 hr0 hr1
    unfold withRetry
    show withRetryGo fn 3 (2 + 1) 0 [] = _
    rw [withRetryGo_retry fn 3 2 0 [] e0 h0 hr0 (by omega)]
    show withRetryGo fn 3 (1 + 1) 1 [delayFor e0 0] = _
    rw [withRetryGo_retry fn 3 1 1 [delayFor e0 0] e1 h1 hr1 (by omega)]
    show withRetryGo fn 3 1 2 [delayFor e0 0, delayFor e1 1] = _
    rw [withRetryGo_ok fn 3 1 2 [delayFor e0 0, delayFor e1 1] v h2]
    simp only [delayFor_eq_getD, RetryOutcome.mk.injEq]
    norm_num
  · intro α fn e0 e1 e2 e3 h0 h1 h2 h3 hr0 hr1 hr2
    unfold withRetry
    show withRetryGo fn 3 (2 + 1) 0 [] = _
    rw [withRetryGo_retry fn 3 2 0 [] e0 h0 hr0 (by omega)]
    show withRetryGo fn 3 (1 + 1) 1 [delayFor e0 0] = _
    rw [withRetryGo_retry fn 3 1 1 [delayFor e0 0] e1 h1 hr1 (by omega)]
    show withRetryGo fn 3 (0 + 1) 2 [delayFor e0 0, delayFor e1 1] = _
    rw [withRetryGo_retry fn 3 0 2 [delayFor e0 0, delayFor e1 1] e2 h2 hr2 (by omega)]
    show withRetryGo fn 3 0 3 [delayFor e0 0, delayFor e1 1, delayFor e2 2] = _
    rw [withRetryGo_throw fn 3 0 3 [delayFor e0 0, delayFor e1 1, delayFor e2 2] e3 h3
      (Or.inr (by omega))]
    simp only [delayFor_eq_getD, RetryOutcome.mk.injEq]
    norm_num
  · intro α fn
    exact le_trans (withRetryGo_attempts_le fn 3 3 0 []) (by omega)

/-- A call that fails twice with status 503 (no Retry-After header) and
    then succeeds. -/
def fn503 : Nat → Outcome Nat :=
  fun n => if n < 2 then .fail { status := some 503 } else .ok 42

/-- A call that always fails with status 404. -/
def fn404 : Nat → Outcome Nat := fun _ => .fail { status := some 404 }

/-- A call that always fails with status 500. -/
def fn500 : Nat → Outcome Nat := fun _ => .fail { status := some 500 }

/-- Closed instantiation of withRetry_policy_correct: 503 is retryable,
    a 404 call never retries, the 503-503-ok call returns the value after
    exactly 3 attempts with delays 1 and 2, a permanently failing 500
    call exhausts its retries after 4 attempts, and the attempt cap. -/
theorem withRetry_policy_correct_witness :
    (retryableStatus { status := some 503 } = true ↔
      ((503 : Int) = 429 ∨ (500 ≤ (503 : Int) ∧ (503 : Int) < 600)))
    ∧ withRetry fn404 = ⟨.fail { status := some 404 }, 1, []⟩
    ∧ withRetry fn503 = ⟨.ok 42, 3,
        [({ status := some 503 } : ErrInfo).retryAfter.getD 1,
         ({ status := some 503 } : ErrInfo).retryAfter.getD 2]⟩
    ∧ withRetry fn500 = ⟨.fail { status := some 500 }, 4,
        [({ status := some 500 } : ErrInfo).retryAfter.getD 1,
         ({ status := some 500 } : ErrInfo).retryAfter.getD 2,
         ({ status := some 500 } : ErrInfo).retryAfter.getD 4]⟩
    ∧ (withRetry fn503).attempts ≤ 4 :=
  ⟨withRetry_policy_correct.1 { status := some 503 } 503 rfl,
   withRetry_policy_correct.2.2.1 Nat fn404 { status := some 404 } rfl (by decide),
   withRetry_policy_correct.2.2.2.1 Nat fn503 { status := some 503 } { status := some 503 }
     42 rfl rfl rfl (by decide) (by decide),
   withRetry_policy_correct.2.2.2.2.1 Nat fn500 { status := some 500 } { status := some 500 }
     { status := some 500 } { status := some 500 } rfl rfl rfl rfl
     (by decide) (by decide) (by decide),
   withRetry_policy_correct.2.2.2.2.2 Nat fn503⟩

/-! ## The team-name filter of computeUtilization (claim C5) -/

/-- Modelled from the claim's words (C5), for comparison with the code:
    the people whose teamId, or any element of teamIds, lies in the
    matching team-id set. -/
def claimRetainedPeople (o : UtilOpts) (ids : List Int) : List Person :=
  o.people.filter (fun p =>
    (match p.teamId with
     | some t => ids.contains t
     | none => false) ||
    (match p.teamIds with
     | some l => l.any (fun i => ids.contains i)
     | none => false))

/-- A person whose teamId matches the filtered team but whose teamIds do
    not: the code consults only teamIds when that field is present. -/
def teamFilterOpts : UtilOpts :=
  { people := [{ id := 1, teamId := some 1, teamIds := some [2] }]
    teams := [{ id := 1, name := "Alpha" }, { id := 2, name := "Beta" }]
    teamNameFilter := some "alpha" }

/-- C5 as stated is false on the code: with the filter alpha matching
    team 1, a person with teamId 1 but teamIds [2] satisfies the claim's
    retention condition (teamId in the set) yet computeUtilization
    returns no rows, because teamIds takes precedence over teamId. -/
theorem teamFilter_claim_counterexample :
    (computeUtilization teamFilterOpts).people.map UtilPersonRow.id = []
    ∧ (claimRetainedPeople teamFilterOpts
        (matchingTeamIds teamFilterOpts.teams (jsToLower (jsTrim "alpha")))).map Person.id
      = [1] := by
  exact ⟨by decide, by decide⟩

/-- C5 (amended): the matching team-id set holds exactly the teams whose
    lowercased name contains the trimmed, lowercased filter; the people
    retained are exactly those whose teamIds (when the field is present)
    contain a matching id or, when teamIds is absent, whose truthy teamId
    is in the set; a filter matching zero teams yields zero people rows
    and a summary with totalPeople 0 and avgUtilizationPercent 0. -/
theorem teamFilter_correct :
    ∀ (o : UtilOpts) (s : String), o.teamNameFilter = some s → s ≠ "" →
      (matchingTeamIds o.teams (jsToLower (jsTrim s)) =
        (o.teams.filter (fun t =>
          strIncludes (jsToLower t.name) (jsToLower (jsTrim s)))).map Team.id)
      ∧ ((computeUtilization o).people.map UtilPersonRow.id =
          (o.people.filter (fun p =>
            (personTeamIdList p).any
              (fun i => (matchingTeamIds o.teams (jsToLower (jsTrim s))).contains i))).map
            Person.id)
      ∧ (matchingTeamIds o.teams (jsToLower (jsTrim s)) = [] →
          (computeUtilization o).people = []
          ∧ (computeUtilization o).summary.totalPeople = 0
          ∧ (computeUtilization o).summary.avgUtilizationPercent = 0) := by
  intro o s hfilter hs
  have hfp : filteredPeople o = o.people.filter (fun p =>
      (personTeamIdList p).any
        (fun i => (matchingTeamIds o.teams (jsToLower (jsTrim s))).contains i)) := by
    unfold filteredPeople
    rw [hfilter]
    show (if s ≠ "" then
        o.people.filter (fun p => (personTeamIdList p).any
          (fun i => (matchingTeamIds o.teams (jsToLower (jsTrim s))).contains i))
      else o.people) = _
    rw [if_pos hs]
  refine ⟨rfl, ?_, ?_⟩
  · show ((filteredPeople o).map (utilPersonRow o)).map UtilPersonRow.id = _
    rw [hfp, List.map_map]
    rfl
  · intro hids
    have hempty : filteredPeople o = [] := by
      rw [hfp, hids]
      refine List.filter_eq_nil_iff.2 (fun p _ => ?_)
      simp
    refine ⟨?_, ?_, ?_⟩
    · show (filteredPeople o).map (utilPersonRow o) = []
      rw [hempty]
      rfl
    · show ((filteredPeople o).map (utilPersonRow o)).length = 0
      rw [hempty]
      rfl
    · show (if ((filteredPeople o).map (utilPersonRow o)).length > 0 then
          round ((((filteredPeople o).map (utilPersonRow o)).map
            UtilPersonRow.utilizationPercent).sum /
              ((((filteredPeople o).map (utilPersonRow o)).length : Nat) : ℚ))
        else 0) = 0
      rw [hempty]
      rfl

/-- A dataset where the team filter matches no team at all. -/
def noTeamMatchOpts : UtilOpts :=
  { people := [alicePerson]
    teams := [{ id := 1, name := "Alpha" }]
    teamNameFilter := some "zzz" }

/-- Closed instantiation of teamFilter_correct at the counterexample
    input (showing the code's actual retention rule) and at a filter
    matching zero teams (empty rows, zero summary). -/
theorem teamFilter_correct_witness :
    ((computeUtilization teamFilterOpts).people.map UtilPersonRow.id =
      (teamFilterOpts.people.filter (fun p =>
        (personTeamIdList p).any
          (fun i => (matchingTeamIds teamFilterOpts.teams
            (jsToLower (jsTrim "alpha"))).contains i))).map Person.id)
    ∧ (computeUtilization noTeamMatchOpts).people = []
    ∧ (computeUtilization noTeamMatchOpts).summary.totalPeople = 0
    ∧ (computeUtilization noTeamMatchOpts).summary.avgUtilizationPercent = 0 :=
  ⟨(teamFilter_correct teamFilterOpts "alpha" rfl (by decide)).2.1,
   ((teamFilter_correct noTeamMatchOpts "zzz" rfl (by decide)).2.2 (by decide)).1,
   ((teamFilter_correct noTeamMatchOpts "zzz" rfl (by decide)).2.2 (by decide)).2.1,
   ((teamFilter_correct noTeamMatchOpts "zzz" rfl (by decide)).2.2 (by decide)).2.2⟩

/-! ## Summary totals of computeUtilization (claim C10) -/

theorem filter_contains_cons_sum (g : Actual → ℚ) (pid : Int) (ids : List Int)
    (hnot : ¬ pid ∈ ids) :
    ∀ acts : List Actual,
      ((acts.filter (fun a => (pid :: ids).contains a.personId)).map g).sum
        = ((acts.filter (fun a => a.personId = pid)).map g).sum
          + ((acts.filter (fun a => ids.contains a.personId)).map g).sum := by
  intro acts
  induction acts with
  | nil => simp
  | cons a t ih =>
    rw [List.filter_cons, List.filter_cons, List.filter_cons]
    by_cases h1 : a.personId = pid
    · have h2 : ids.contains a.personId = false := by
        rw [h1]
        simpa using hnot
      have hc1 : ((pid :: ids).contains a.personId) = true := by
        rw [h1]
        simp
      rw [if_pos hc1, if_pos (by simp [h1]), if_neg (by rw [h2]; exact Bool.false_ne_true)]
      rw [List.map_cons, List.sum_cons, List.map_cons, List.sum_cons, ih]
      ring
    · by_cases h3 : ids.contains a.personId = true
      · have hc1 : ((pid :: ids).contains a.personId) = true := by
          simp only [List.contains_cons, h3, Bool.or_true]
        rw [if_pos hc1, if_neg (by simp [h1]), if_pos h3]
        rw [List.map_cons, List.sum_cons, List.map_cons, List.sum_cons, ih]
        ring
      · have hc1 : ¬ ((pid :: ids).contains a.personId) = true := by
          simp only [List.contains_cons, Bool.or_eq_true]
          push_neg
          refine ⟨?_, h3⟩
          simpa using h1
        rw [if_neg hc1, if_neg (by simp [h1]), if_neg h3]
        exact ih

theorem sum_grouped_eq_filter_sum (g : Actual → ℚ) :
    ∀ (ps : List Person) (acts : List Actual), (ps.map Person.id).Nodup →
      (ps.map (fun p => ((acts.filter (fun a => a.personId = p.id)).map g).sum)).sum
        = ((acts.filter (fun a => (ps.map Person.id).contains a.personId)).map g).sum := by
  intro ps
  induction ps with
  | nil =>
    intro acts _
    simp
  | cons p ps ih =>
    intro acts hnd
    have hnd1 : ¬ p.id ∈ ps.map Person.id := (List.nodup_cons.1 hnd).1
    have hnd2 : (ps.map Person.id).Nodup := (List.nodup_cons.1 hnd).2
    rw [List.map_cons, List.sum_cons, List.map_cons,
      filter_contains_cons_sum g p.id (ps.map Person.id) hnd1 acts, ih acts hnd2]

/-- Two distinct person records sharing the same id, with one actual for
    that id: the code adds the actual once per person row. -/
def dupIdOpts : UtilOpts :=
  { people := [{ id := 1, firstName := "A" }, { id := 1, firstName := "B" }]
    actuals := [{ personId := 1, billableMinutes := some 10 }] }

/-- C10 as stated is false on the code: when two retained person records
    share an id, the summary counts that id's actuals once per row, so
    the total (20) differs from the sum over the distinct matching
    actual records (10). -/
theorem summary_totals_counterexample :
    (computeUtilization dupIdOpts).summary.totalBillableMinutes = 20
    ∧ ((dupIdOpts.actuals.filter (fun a =>
          ((computeUtilization dupIdOpts).people.map UtilPersonRow.id).contains a.personId)).map
        (fun a => a.billableMinutes.getD 0)).sum = 10
    ∧ (20 : ℚ) ≠ 10 := by
  refine ⟨?_, ?_, by norm_num⟩
  · show ((filteredPeople dupIdOpts).map
        (fun p => (actualsByPerson dupIdOpts.actuals p.id).1)).sum = 20
    have hfp : filteredPeople dupIdOpts = dupIdOpts.people := rfl
    rw [hfp]
    norm_num [dupIdOpts, actualsByPerson, List.foldl]
  · have hids : (computeUtilization dupIdOpts).people.map UtilPersonRow.id = [1, 1] := by
      decide
    rw [hids]
    have hfilter : dupIdOpts.actuals.filter
        (fun a => ([1, 1] : List Int).contains a.personId) = dupIdOpts.actuals := by
      decide
    rw [hfilter]
    norm_num [dupIdOpts]

/-- C10 (amended): the summary totals always equal the sums of the
    corresponding fields over the returned per-person rows (missing
    billableMinutes and nonbillableMinutes fields counting as 0); when
    the retained people's ids are pairwise distinct, they also equal the
    sums over exactly those actual records whose personId appears among
    the retained people, actuals for other ids being silently excluded. -/
theorem summary_totals_correct :
    (∀ o : UtilOpts,
      (computeUtilization o).summary.totalBillableMinutes =
        ((computeUtilization o).people.map UtilPersonRow.billableMinutes).sum
      ∧ (computeUtilization o).summary.totalNonbillableMinutes =
        ((computeUtilization o).people.map UtilPersonRow.nonbillableMinutes).sum)
    ∧ (∀ o : UtilOpts, ((filteredPeople o).map Person.id).Nodup →
      (computeUtilization o).summary.totalBillableMinutes =
        ((o.actuals.filter (fun a =>
            ((filteredPeople o).map Person.id).contains a.personId)).map
          (fun a => a.billableMinutes.getD 0)).sum
      ∧ (computeUtilization o).summary.totalNonbillableMinutes =
        ((o.actuals.filter (fun a =>
            ((filteredPeople o).map Person.id).contains a.personId)).map
          (fun a => a.nonbillableMinutes.getD 0)).sum) := by
  constructor
  · intro o
    constructor
    · show ((filteredPeople o).map (fun p => (actualsByPerson o.actuals p.id).1)).sum =
        (((filteredPeople o).map (utilPersonRow o)).map UtilPersonRow.billableMinutes).sum
      rw [List.map_map]
      rfl
    · show ((filteredPeople o).map (fun p => (actualsByPerson o.actuals p.id).2)).sum =
        (((filteredPeople o).map (utilPersonRow o)).map UtilPersonRow.nonbillableMinutes).sum
      rw [List.map_map]
      rfl
  · intro o hnd
    constructor
    · show ((filteredPeople o).map (fun p => (actualsByPerson o.actuals p.id).1)).sum = _
      rw [List.map_congr_left (fun p _ => by rw [actualsByPerson_eq])]
      exact sum_grouped_eq_filter_sum (fun a => a.billableMinutes.getD 0)
        (filteredPeople o) o.actuals hnd
    · show ((filteredPeople o).map (fun p => (actualsByPerson o.actuals p.id).2)).sum = _
      rw [List.map_congr_left (fun p _ => by rw [actualsByPerson_eq])]
      exact sum_grouped_eq_filter_sum (fun a => a.nonbillableMinutes.getD 0)
        (filteredPeople o) o.actuals hnd

/-- Closed instantiation of summary_totals_correct at the Alice example
    (distinct ids), covering both the per-row equality and the
    filtered-actuals equality. -/
theorem summary_totals_correct_witness :
    ((computeUtilization aliceOpts).summary.totalBillableMinutes =
      ((computeUtilization aliceOpts).people.map UtilPersonRow.billableMinutes).sum)
    ∧ (computeUtilization aliceOpts).summary.totalBillableMinutes =
      ((aliceOpts.actuals.filter (fun a =>
          ((filteredPeople aliceOpts).map Person.id).contains a.personId)).map
        (fun a => a.billableMinutes.getD 0)).sum :=
  ⟨(summary_totals_correct.1 aliceOpts).1,
   (summary_totals_correct.2 aliceOpts (by decide)).1⟩

end Runn
